import Mathlib

/-!
# Audio clip extraction and normalization pipeline — verification

Shallow embedding of the clip pipeline implemented (with small variations) in
`scripts/audio_ingest.py`, `scripts/cornell_ingest.py`, `scripts/nz_ingest.py`,
`scripts/clip_selector.py`, `scripts/clip_editor.py`, `scripts/review_clips.py`
and `scripts/merge_candidates.py`.

Modelling conventions:
* a decoded mono audio buffer is a `List ℚ` of samples (floats modelled as exact
  rationals), paired with a sample rate `ℕ` where needed;
* Python strings are `List Char`;
* Python `int(x)` on a number is truncation toward zero (`pyInt`);
* fallible operations return `Except`;
* the external `pyloudnorm` meter and the loudness gain `10 ^ ((target − L)/20)`
  it induces are irrational in general, so the loudness-normalization stage is
  parameterized by the measurement function and the gain function; the branch
  structure around them is embedded exactly.
-/

/-- Python `int(q)` applied to a number: truncation toward zero. -/
def pyInt (q : ℚ) : ℤ := if 0 ≤ q then ⌊q⌋ else -⌊-q⌋

/-- `pyInt` landing in `ℕ` (all pipeline uses are on nonnegative values). -/
def pyNat (q : ℚ) : ℕ := (pyInt q).toNat

/-- Python `range(0, stop, step)` over naturals: the multiples of `step` below
`stop`.  A `stop` of `0` (Python: any nonpositive stop) gives the empty range;
the pipeline never calls this with `step = 0`. -/
def pyRange (stop step : ℕ) : List ℕ :=
  (List.range ((stop + step - 1) / step)).map (fun k => k * step)

/-- Python slice `l[start : start + len]` (with `0 ≤ start`). -/
def pySlice (l : List ℚ) (start len : ℕ) : List ℚ := (l.drop start).take len

/-- Sum of squared samples of a window.  The scripts compute the RMS
`np.sqrt(np.mean(window ** 2))`; every window compared against another has the
same length, and `x ↦ √(x / W)` is strictly monotone on nonnegatives, so
comparisons and ties of the code's RMS agree exactly with comparisons and ties
of this sum of squares. -/
def sumSq (l : List ℚ) : ℚ := (l.map (fun x => x * x)).sum

/-- RMS-energy proxy of the window of length `W` starting at `start`
(see `sumSq` for the order-equivalence with the code's RMS). -/
def energy (audio : List ℚ) (start W : ℕ) : ℚ := sumSq (pySlice audio start W)

/-- `np.clip (x, lo, hi)`. -/
def npClip (x lo hi : ℚ) : ℚ := max lo (min x hi)

/-- `int(MIN_DURATION * sample_rate)` with `MIN_DURATION = 0.5` (identical
constant in audio_ingest.py, cornell_ingest.py, nz_ingest.py, clip_selector.py,
clip_editor.py). -/
def min_samples (sr : ℕ) : ℕ := sr / 2

/-- `int(MAX_DURATION * sample_rate)` with `MAX_DURATION = 3.0`. -/
def max_samples (sr : ℕ) : ℕ := 3 * sr

/-- One update step of the best-window scan of `audio_ingest.trim_audio`
(`if energy > best_energy: best_energy, best_start = energy, start`), with
`E` the window-energy function. -/
def bestStep (E : ℕ → ℚ) (p : ℕ × ℚ) (s : ℕ) : ℕ × ℚ :=
  if E s > p.2 then (s, E s) else p

/-- The best window start found by the sliding scan of
`audio_ingest.trim_audio` lines 257-271: step `sample_rate // 10`, window
`max_samples`, initial state `best_start = 0, best_energy = 0`. -/
def bestStart (audio : List ℚ) (sr : ℕ) : ℕ :=
  (List.foldl (bestStep (fun s => energy audio s (max_samples sr)))
    (0, 0) (pyRange (audio.length - max_samples sr) (sr / 10))).1

/-- `audio_ingest.trim_audio`: pad to `min_samples` with zeros if shorter,
else if longer than `max_samples` keep the loudest `max_samples`-window
(the source's inner `len(audio) > window_size` test, always true on this
branch since `window_size = max_samples`, is kept verbatim). -/
def trim_audio (audio : List ℚ) (sr : ℕ) : List ℚ :=
  if audio.length < min_samples sr then
    audio ++ List.replicate (min_samples sr - audio.length) 0
  else if max_samples sr < audio.length then
    if max_samples sr < audio.length then
      pySlice audio (bestStart audio sr) (max_samples sr)
    else audio.take (max_samples sr)
  else audio

/-- `np.interp` at a single query point `x`, with sample points
`xp = np.arange(len(audio))` and values `fp = audio`: linear interpolation
between the two neighbouring indices, clamped to the last sample beyond the
right end (query points used by the pipeline are always within `[0, n-1]`). -/
def interpAt (audio : List ℚ) (x : ℚ) : ℚ :=
  if (⌊x⌋).toNat + 1 < audio.length then
    audio.getD (⌊x⌋).toNat 0
      + (x - ((⌊x⌋).toNat : ℚ))
        * (audio.getD ((⌊x⌋).toNat + 1) 0 - audio.getD (⌊x⌋).toNat 0)
  else audio.getD (audio.length - 1) 0

/-- Point `i` of `np.linspace(0, n - 1, newLen)`. -/
def linspacePos (n newLen i : ℕ) : ℚ :=
  if newLen ≤ 1 then 0 else (i : ℚ) * ((n : ℚ) - 1) / ((newLen : ℚ) - 1)

/-- The inline resampling stage, shared verbatim by
`audio_ingest.process_audio_file`, `cornell_ingest.process_cornell_file`,
`nz_ingest.process_audio_file`, `clip_selector.extract_clip` and
`clip_editor.extract_clip`: if the rates differ, produce
`new_length = int(len(audio) / sr_in * sr_out)` samples by linear
interpolation at `np.linspace(0, len(audio) - 1, new_length)`; the sample
rate is then the output rate.  Returns (samples, sample rate). -/
def resample (audio : List ℚ) (srIn srOut : ℕ) : List ℚ × ℕ :=
  if srIn = srOut then (audio, srIn)
  else
    (((List.range (pyNat ((audio.length : ℚ) / (srIn : ℚ) * (srOut : ℚ)))).map
        (fun i => interpAt audio
          (linspacePos audio.length
            (pyNat ((audio.length : ℚ) / (srIn : ℚ) * (srOut : ℚ))) i))),
      srOut)

/-- `normalize_loudness` (identical in audio_ingest.py lines 280-297,
cornell_ingest.py lines 178-195, nz_ingest.py lines 467-477, and inlined in
clip_selector.py lines 279-284 / clip_editor.py lines 437-442): measure the
integrated loudness; if it is undefined (−∞/NaN, here `none`) return the
buffer unchanged; otherwise apply the uniform linear gain
(`pyln.normalize.loudness`, abstracted as `gain L`) and hard-clip every
sample to `[-1.0, 1.0]`. -/
def normalize_loudness (meter : List ℚ → Option ℚ) (gain : ℚ → ℚ)
    (audio : List ℚ) : List ℚ :=
  match meter audio with
  | none => audio
  | some L => (audio.map (fun x => x * gain L)).map (fun x => npClip x (-1) 1)

/-- Modelled from the spec: the integrated-loudness measurement performed by
the external `pyloudnorm` meter (`meter.integrated_loudness`), which is not
part of this repository.  Per the spec, a silent buffer yields an undefined
measurement (negative infinity / NaN), here `none`; a non-silent buffer yields
a finite value whose exact LUFS magnitude (a logarithm, irrational in general)
is irrelevant to the claims, so the mean-square power stands in for it. -/
def integrated_loudness (audio : List ℚ) : Option ℚ :=
  if sumSq audio = 0 then none else some (sumSq audio / (audio.length : ℚ))

/-- The greedy non-overlap selection loop of `extract_clips`
(cornell_ingest.py lines 156-167, nz_ingest.py lines 448-457): walk the
energy-sorted starts, skip any start within one window length of an already
selected start, and stop once `cap` (`max_clips`) starts are selected. -/
def greedySelect (W cap : ℕ) : List ℕ → List ℕ → List ℕ
  | [], sel => sel
  | s :: rest, sel =>
    if sel.any (fun t => Nat.dist s t < W) then greedySelect W cap rest sel
    else if cap ≤ sel.length + 1 then sel ++ [s]
    else greedySelect W cap rest (sel ++ [s])

/-- The candidate window starts of `extract_clips`, sorted by descending RMS
energy (`segments.sort(key=lambda x: x['energy'], reverse=True)`; Python's
sort is stable, as is `List.mergeSort`, so equal-energy starts keep scan
order).  `W` is `target_samples`, the step is `sample_rate // 2`. -/
def sortedStarts (audio : List ℚ) (sr W : ℕ) : List ℕ :=
  (pyRange (audio.length - W) (sr / 2)).mergeSort
    (fun a b => decide (energy audio b W ≤ energy audio a W))

/-- The `selected` list of `extract_clips`: greedy non-overlapping selection
of up to `min 3 (number of scanned windows)` starts in descending-energy
order. -/
def selectedStarts (audio : List ℚ) (sr W : ℕ) : List ℕ :=
  greedySelect W (min 3 (sortedStarts audio sr W).length)
    (sortedStarts audio sr W) []

/-- The `target_samples = int(target_duration * sample_rate)` of
`extract_clips`. -/
def target_samples (targetDuration : ℚ) (sr : ℕ) : ℕ :=
  pyNat (targetDuration * (sr : ℚ))

/-- `extract_clips` — the multi-segment selector, textually identical in
cornell_ingest.py lines 117-175 (default `target_duration = 2.0`) and
nz_ingest.py lines 416-464 (default `target_duration = 2.5`): a buffer no
longer than the target window is returned whole as the single clip; otherwise
the greedily selected non-overlapping windows are sliced out, keeping those of
at least `int(MIN_DURATION * sample_rate)` samples, with a fallback to the
first `target_samples` samples when nothing qualifies. -/
def extract_clips (audio : List ℚ) (sr : ℕ) (targetDuration : ℚ) :
    List (List ℚ) :=
  if audio.length ≤ target_samples targetDuration sr then [audio]
  else
    if pyRange (audio.length - target_samples targetDuration sr) (sr / 2) = []
    then [audio.take (target_samples targetDuration sr)]
    else
      match (selectedStarts audio sr (target_samples targetDuration sr)).filterMap
          (fun s =>
            if min_samples sr ≤ (pySlice audio s (target_samples targetDuration sr)).length
            then some (pySlice audio s (target_samples targetDuration sr))
            else none) with
      | [] => [audio.take (target_samples targetDuration sr)]
      | c :: cs => c :: cs

/-- A `ClipMetadata` record of the catalog (`clips.json`), restricted to the
fields the verified operations read or write. -/
structure Clip where
  clip_id : List Char
  species_code : List Char
  canonical : Bool
  rejected : Bool
  quality_score : ℤ
  vocalization_type : List Char
deriving DecidableEq

namespace ReviewClips

/-- One entry of the `modified` map posted to `review_clips.save_changes`:
each field is applied when present (the source also counts changes for the
commit message; that bookkeeping does not affect the saved catalog and is
omitted). -/
structure ClipUpdates where
  canonical : Option Bool := none
  rejected : Option Bool := none
  quality_score : Option ℤ := none
  vocalization_type : Option (List Char) := none

/-- Effect of `save_changes` step 4 on one clip record: every field present in
the update overwrites the record's field (the source writes only when the
value differs, which has the same result). -/
def applyUpdate (c : Clip) (u : ClipUpdates) : Clip :=
  { c with
    canonical := u.canonical.getD c.canonical
    rejected := u.rejected.getD c.rejected
    quality_score := u.quality_score.getD c.quality_score
    vocalization_type := u.vocalization_type.getD c.vocalization_type }

/-- `save_changes` step 4: apply each posted modification to the record with
that `clip_id`.  (The source indexes records through `clips_by_id`, a dict of
aliases into the list; with unique ids — the catalog invariant — updating the
matching records in place is the same operation.) -/
def applyModifications (clips : List Clip)
    (modified : List (List Char × ClipUpdates)) : List Clip :=
  modified.foldl
    (fun acc m => acc.map (fun c => if c.clip_id = m.1 then applyUpdate c m.2 else c))
    clips

/-- `save_changes` step 5: scan the records, remembering the species of each
non-rejected canonical clip; a second non-rejected canonical for a species
already seen raises `ValueError` (returned here as `some species`). -/
def checkCanonicals : List Clip → List (List Char) → Option (List Char)
  | [], _ => none
  | c :: rest, seen =>
    if c.canonical && !c.rejected then
      if c.species_code ∈ seen then some c.species_code
      else checkCanonicals rest (c.species_code :: seen)
    else checkCanonicals rest seen

/-- `review_clips.save_changes`, persistence-relevant core: apply the posted
modifications, validate canonical uniqueness (raising aborts before the
rejected-file deletion of step 6 and the catalog write of step 8, so the
catalog file on disk is untouched), then drop rejected records and save.  The
returned list is the catalog written to `clips.json`. -/
def save_changes (clips : List Clip)
    (modified : List (List Char × ClipUpdates)) :
    Except (List Char) (List Clip) :=
  match checkCanonicals (applyModifications clips modified) [] with
  | some sp => .error sp
  | none => .ok ((applyModifications clips modified).filter (fun c => !c.rejected))

/-- Number of non-rejected canonical records for a species. -/
def canonCount (l : List Clip) (sp : List Char) : ℕ :=
  l.countP (fun c => c.canonical && !c.rejected && c.species_code == sp)

end ReviewClips

namespace MergeCandidates

/-- One entry of a candidates `manifest.json`
(as read by `merge_candidates.merge_candidates`). -/
structure Candidate where
  source_id : List Char
  species_name : List Char
  file_path : List Char
  vocalization_type : List Char
  duration_ms : ℤ
  loudness_lufs : ℚ
  recordist : List Char

/-- `Path(p).name`: the part of the path after the last slash. -/
def pathName (p : List Char) : List Char :=
  (p.reverse.takeWhile (fun c => c ≠ '/')).reverse

/-- `s.split('_')[0]`: the longest underscore-free initial segment. -/
def splitHeadUnderscore (s : List Char) : List Char :=
  s.takeWhile (fun c => c ≠ '_')

/-- Python `s.replace('XC', rep)`: non-overlapping left-to-right replacement,
specialized to the pattern actually used. -/
def replaceXC (rep : List Char) : List Char → List Char
  | 'X' :: 'C' :: rest => rep ++ replaceXC rep rest
  | c :: rest => c :: replaceXC rep rest
  | [] => []

/-- merge_candidates.py lines 61-84: the catalog entry built from one
candidate (`clip_id` from `source_id` with `XC` replaced by
`{species_code}_`, species code from the filename, `quality_score = 5`,
`canonical = rejected = False`). -/
def candidateEntry (cand : Candidate) : Clip :=
  { clip_id :=
      replaceXC (splitHeadUnderscore (pathName cand.file_path) ++ ['_'])
        cand.source_id
    species_code := splitHeadUnderscore (pathName cand.file_path)
    canonical := false
    rejected := false
    quality_score := 5
    vocalization_type := cand.vocalization_type }

/-- `merge_candidates.merge_candidates`, persistence-relevant core
(lines 60-98): append one new entry per candidate to the existing catalog;
if the merged count dropped below the original count, exit fatally before
writing (leaving `clips.json` untouched), else save the merged list. -/
def merge_candidates (existing : List Clip) (candidates : List Candidate) :
    Except (List Char) (List Clip) :=
  if (existing ++ candidates.map candidateEntry).length < existing.length then
    .error ("clip count decreased".toList)
  else .ok (existing ++ candidates.map candidateEntry)

end MergeCandidates

/-- `d`-th decimal digit as a character (`0 ≤ d ≤ 9`; other inputs never
occur: `Nat.digits 10` produces digits below 10). -/
def digitChar (d : ℕ) : Char :=
  match d with
  | 0 => '0' | 1 => '1' | 2 => '2' | 3 => '3' | 4 => '4'
  | 5 => '5' | 6 => '6' | 7 => '7' | 8 => '8' | _ => '9'

/-- Numeric value of a decimal digit character. -/
def digitVal (c : Char) : ℕ := c.toNat - 48

/-- Decimal representation of a natural number, most significant digit first
(empty for `0`, as with `Nat.digits`; every use pads with zeros). -/
def natChars (n : ℕ) : List Char := ((Nat.digits 10 n).reverse).map digitChar

/-- Left-pad with `'0'` to width `w` — the padding part of Python's
`format(n, '0Nd')`. -/
def padZero (w : ℕ) (cs : List Char) : List Char :=
  List.replicate (w - cs.length) '0' ++ cs

/-- Python `f"{z:03d}"`: zero-pad to total width 3; for a negative value the
sign occupies one of the three columns. -/
def pad3 (z : ℤ) : List Char :=
  if z < 0 then '-' :: padZero 2 (natChars z.natAbs)
  else padZero 3 (natChars z.natAbs)

/-- Value of a string of decimal digit characters. -/
def digitsVal (cs : List Char) : ℕ :=
  cs.foldl (fun a c => 10 * a + digitVal c) 0

/-- Parse of a nonempty all-digit string, else `none`. -/
def parseNatDigits (cs : List Char) : Option ℕ :=
  if cs ≠ [] ∧ cs.all Char.isDigit then some (digitsVal cs) else none

/-- Python `int(s)` on a string: optional sign followed by digits, `ValueError`
(= `none`) otherwise.  (Python additionally strips surrounding whitespace and
accepts underscore digit separators; neither can occur in the identifiers
these tools generate, and a more permissive parse could only add further
values to the maximum taken below.) -/
def parsePyInt (cs : List Char) : Option ℤ :=
  match cs with
  | [] => none
  | c :: rest =>
    if c = '-' then (parseNatDigits rest).map (fun (n : ℕ) => -(n : ℤ))
    else if c = '+' then (parseNatDigits rest).map (fun (n : ℕ) => (n : ℤ))
    else (parseNatDigits (c :: rest)).map (fun (n : ℕ) => (n : ℤ))

/-- Python `max(l, default=0)`: the default applies only to an empty list. -/
def pyMaxDefault (l : List ℤ) : ℤ :=
  match l with
  | [] => 0
  | x :: xs => xs.foldl max x

namespace ClipSelector

/-- The literal `_doc_` of the sequential id scheme of
`clip_selector.extract_clip`. -/
def docTag : List Char := "_doc_".toList

/-- clip_selector.py lines 294-303: the numeric suffixes of the existing
catalog ids that start with `{species_code}_doc_` and whose remainder parses
as an integer (`int(...)` failures are skipped). -/
def clipNums (pfx : List Char) (catalog : List Clip) : List ℤ :=
  catalog.filterMap (fun c =>
    if pfx.isPrefixOf c.clip_id then parsePyInt (c.clip_id.drop pfx.length)
    else none)

/-- `next_num = max(existing_nums, default=0) + 1`. -/
def next_num (species : List Char) (catalog : List Clip) : ℤ :=
  pyMaxDefault (clipNums (species ++ docTag) catalog) + 1

/-- `clip_id = f"{species_code}_doc_{next_num:03d}"`. -/
def next_clip_id (species : List Char) (catalog : List Clip) : List Char :=
  species ++ docTag ++ pad3 (next_num species catalog)

/-- The validation errors of `clip_selector.extract_clip`, each naming the
violated constraint as the raised `ValueError` message does. -/
inductive ExtractError
  | durationOutOfRange (d : ℚ)
  | badSpeciesCode (code : List Char)
  | selectionOutOfBounds (startT endT : ℚ)
deriving DecidableEq

/-- `clip_selector.extract_clip` (lines 236-349), on an already-decoded mono
buffer: validate the requested duration against `[MIN_DURATION, MAX_DURATION]`
and the species code length, compute the segment bounds in samples and
validate them against the buffer, and only then cut, resample, normalize,
assign the next sequential id and append the new record to the catalog.  All
file writes (`sf.write`, the spectrogram, rewriting `clips.json`) happen in
the `.ok` branch only, after every validation; an `.error` result is the
raised `ValueError`, before any write. -/
def extract_clip (audio : List ℚ) (sr : ℕ) (startTime duration : ℚ)
    (speciesCode : List Char) (meter : List ℚ → Option ℚ) (gain : ℚ → ℚ)
    (catalog : List Clip) : Except ExtractError (List ℚ × List Clip) :=
  if duration < 1/2 ∨ 3 < duration then
    .error (.durationOutOfRange duration)
  else if speciesCode.length < 3 ∨ 10 < speciesCode.length then
    .error (.badSpeciesCode speciesCode)
  else
    if pyInt (startTime * (sr : ℚ)) < 0 ∨
        (audio.length : ℤ) < pyInt ((startTime + duration) * (sr : ℚ)) then
      .error (.selectionOutOfBounds startTime (startTime + duration))
    else
      .ok
        (normalize_loudness meter gain
          (resample
            ((audio.drop (pyInt (startTime * (sr : ℚ))).toNat).take
              ((pyInt ((startTime + duration) * (sr : ℚ))).toNat
                - (pyInt (startTime * (sr : ℚ))).toNat))
            sr 44100).1,
        catalog ++
          [{ clip_id := next_clip_id speciesCode catalog
             species_code := speciesCode
             canonical := false
             rejected := false
             quality_score := 4
             vocalization_type := "call".toList }])

end ClipSelector

namespace NZIngest

/-- `nz_ingest.generate_clip_id` (lines 550-553):
`f"{species_code}_{hashlib.md5(url.encode()).hexdigest()[:8]}"`.  The md5
truncation is a call into the external `hashlib`; it enters here as the
function `md5_8`.  Nothing is looked up in any catalog or manifest. -/
def generate_clip_id (md5_8 : List Char → List Char)
    (species_code url : List Char) : List Char :=
  species_code ++ '_' :: md5_8 url

/-- nz_ingest.py line 617: `processed_files.append({...})` — the new record is
appended unconditionally; no duplicate-identifier check exists on this path
(nor on the later `merge_candidates` path that folds the manifest into the
catalog). -/
def addProcessedClip (manifest : List Clip) (c : Clip) : List Clip :=
  manifest ++ [c]

end NZIngest

lemma sumSq_nonneg (l : List ℚ) : 0 ≤ sumSq l := by
  apply List.sum_nonneg
  intro x hx
  obtain ⟨y, _, rfl⟩ := List.mem_map.mp hx
  exact mul_self_nonneg y

lemma energy_nonneg (audio : List ℚ) (start W : ℕ) : 0 ≤ energy audio start W :=
  sumSq_nonneg _

lemma mem_pyRange_lt {stop step s : ℕ} (hstep : 0 < step)
    (hs : s ∈ pyRange stop step) : s < stop := by
  obtain ⟨k, hk, rfl⟩ := List.mem_map.mp hs
  have hk' : k < (stop + step - 1) / step := List.mem_range.mp hk
  have h1 : (k + 1) * step ≤ stop + step - 1 :=
    (Nat.le_div_iff_mul_le hstep).mp hk'
  have h2 : (k + 1) * step = k * step + step := by ring
  omega

lemma pyRange_pairwise (stop step : ℕ) :
    (pyRange stop step).Pairwise (· ≤ ·) := by
  exact (List.pairwise_lt_range _).map _
    (fun a b hab => Nat.mul_le_mul_right step (Nat.le_of_lt hab))

lemma pyRange_cons {stop step : ℕ} (hstop : 0 < stop) (hstep : 0 < step) :
    ∃ rest, pyRange stop step = 0 :: rest := by
  have h1 : 1 ≤ (stop + step - 1) / step := by
    rw [Nat.le_div_iff_mul_le hstep]
    omega
  obtain ⟨m, hm⟩ : ∃ m, (stop + step - 1) / step = m + 1 :=
    ⟨(stop + step - 1) / step - 1, by omega⟩
  refine ⟨(List.map Nat.succ (List.range m)).map (fun k => k * step), ?_⟩
  rw [pyRange, hm, List.range_succ_eq_map, List.map_cons, Nat.zero_mul]

lemma bestFoldSpec (E : ℕ → ℚ) (l : List ℕ) :
    ∀ (bs : ℕ) (be : ℚ), be = E bs →
      (∀ s ∈ l, bs ≤ s) → l.Pairwise (· ≤ ·) →
      (l.foldl (bestStep E) (bs, be)).2 = E (l.foldl (bestStep E) (bs, be)).1 ∧
      (l.foldl (bestStep E) (bs, be) = (bs, be) ∨
        ((l.foldl (bestStep E) (bs, be)).1 ∈ l ∧
          be < (l.foldl (bestStep E) (bs, be)).2)) ∧
      be ≤ (l.foldl (bestStep E) (bs, be)).2 ∧
      ∀ s ∈ l, E s ≤ (l.foldl (bestStep E) (bs, be)).2 ∧
        (E s = (l.foldl (bestStep E) (bs, be)).2 →
          (l.foldl (bestStep E) (bs, be)).1 ≤ s) := by
  induction l with
  | nil => intro bs be hbe _ _; simp [hbe]
  | cons s rest ih =>
    intro bs be hbe hle hpw
    obtain ⟨hhead, htail⟩ := List.pairwise_cons.mp hpw
    rw [List.foldl_cons]
    by_cases h : E s > be
    · have hstep : bestStep E (bs, be) s = (s, E s) := by
        simp [bestStep, h]
      rw [hstep]
      obtain ⟨h1, h2, h3, h4⟩ := ih s (E s) rfl hhead htail
      refine ⟨h1, ?_, ?_, ?_⟩
      · rcases h2 with h2 | ⟨h2a, h2b⟩
        · exact Or.inr ⟨by rw [h2]; exact List.mem_cons_self _ _, by rw [h2]; exact h⟩
        · exact Or.inr ⟨List.mem_cons_of_mem _ h2a, lt_trans h h2b⟩
      · exact le_of_lt (lt_of_lt_of_le h h3)
      · intro t ht
        rcases List.mem_cons.mp ht with rfl | ht'
        · refine ⟨h3, fun heq => ?_⟩
          rcases h2 with h2 | ⟨_, h2b⟩
          · rw [h2]
          · exact absurd heq (ne_of_lt h2b)
        · exact h4 t ht'
    · push_neg at h
      have hstep : bestStep E (bs, be) s = (bs, be) := by
        simp only [bestStep]
        rw [if_neg (by simpa using not_lt.mpr h)]
      rw [hstep]
      obtain ⟨h1, h2, h3, h4⟩ :=
        ih bs be hbe (fun t ht => hle t (List.mem_cons_of_mem _ ht)) htail
      refine ⟨h1, ?_, h3, ?_⟩
      · rcases h2 with h2 | ⟨h2a, h2b⟩
        · exact Or.inl h2
        · exact Or.inr ⟨List.mem_cons_of_mem _ h2a, h2b⟩
      · intro t ht
        rcases List.mem_cons.mp ht with rfl | ht'
        · refine ⟨le_trans h h3, fun heq => ?_⟩
          rcases h2 with h2 | ⟨_, h2b⟩
          · rw [h2]; exact hle t (List.mem_cons_self _ _)
          · exact absurd heq (ne_of_lt (lt_of_le_of_lt h h2b))
        · exact h4 t ht'

lemma bestStart_spec (audio : List ℚ) (sr : ℕ) (h10 : 10 ≤ sr)
    (hlen : max_samples sr < audio.length) :
    bestStart audio sr ∈ pyRange (audio.length - max_samples sr) (sr / 10) ∧
    (∀ s ∈ pyRange (audio.length - max_samples sr) (sr / 10),
      energy audio s (max_samples sr) ≤
        energy audio (bestStart audio sr) (max_samples sr)) ∧
    (∀ s ∈ pyRange (audio.length - max_samples sr) (sr / 10),
      energy audio s (max_samples sr) =
        energy audio (bestStart audio sr) (max_samples sr) →
      bestStart audio sr ≤ s) := by
  have hstop : 0 < audio.length - max_samples sr := by omega
  have hstep : 0 < sr / 10 := Nat.div_pos (by omega) (by norm_num)
  obtain ⟨rest, hL⟩ := pyRange_cons hstop hstep
  set E : ℕ → ℚ := fun s => energy audio s (max_samples sr) with hE
  have hpw : (0 :: rest).Pairwise (· ≤ ·) := hL ▸ pyRange_pairwise _ _
  obtain ⟨hhead, htail⟩ := List.pairwise_cons.mp hpw
  have hE0 : (0 : ℚ) ≤ E 0 := energy_nonneg _ _ _
  have hstep1 : bestStep E (0, 0) 0 = (0, E 0) := by
    by_cases h : E 0 > 0
    · simp [bestStep, h]
    · have : E 0 = 0 := le_antisymm (not_lt.mp h) hE0
      simp [bestStep, this]
  have hfold : List.foldl (bestStep E) (0, 0)
      (pyRange (audio.length - max_samples sr) (sr / 10)) =
      List.foldl (bestStep E) (0, E 0) rest := by
    rw [hL, List.foldl_cons, hstep1]
  have hbest : bestStart audio sr =
      (List.foldl (bestStep E) (0, E 0) rest).1 := by
    rw [bestStart, ← hE, hfold]
  obtain ⟨h1, h2, h3, h4⟩ :=
    bestFoldSpec E rest 0 (E 0) rfl (fun t _ => Nat.zero_le t) htail
  set r := List.foldl (bestStep E) (0, E 0) rest with hr
  refine ⟨?_, ?_, ?_⟩
  · rcases h2 with h2 | ⟨h2a, _⟩
    · rw [hbest, h2, hL]; exact List.mem_cons_self _ _
    · rw [hbest, hL]; exact List.mem_cons_of_mem _ h2a
  · intro s hs
    rw [hL] at hs
    have hEr : E (bestStart audio sr) = r.2 := by rw [hbest, ← h1]
    rcases List.mem_cons.mp hs with rfl | hs'
    · show E 0 ≤ E (bestStart audio sr)
      rw [hEr]; exact h3
    · show E s ≤ E (bestStart audio sr)
      rw [hEr]; exact (h4 s hs').1
  · intro s hs heq
    rw [hL] at hs
    have hEr : E (bestStart audio sr) = r.2 := by rw [hbest, ← h1]
    rcases List.mem_cons.mp hs with rfl | hs'
    · rcases h2 with h2 | ⟨_, h2b⟩
      · rw [hbest, h2]
      · exact absurd (heq.trans hEr) (ne_of_lt h2b)
    · have hle := (h4 s hs').2 (heq.trans hEr)
      rw [hbest]
      exact hle

/-- Claim C7: in single-best mode (`audio_ingest.trim_audio` on a buffer
longer than the target window `W = max_samples`), the selector slides the
window in fixed steps of `sample_rate // 10` samples (100 ms), computing the
RMS energy at each scanned window position, and returns a scanned position of
maximum RMS; when several scanned positions attain the maximum, the earliest
one in scan order is returned.  `trim_audio` then cuts exactly that window.
(Energies are compared through `energy`, order-equivalent to the code's RMS;
see `sumSq`.) -/
theorem C7_single_best_max_rms (audio : List ℚ) (sr : ℕ) (h10 : 10 ≤ sr)
    (hlen : max_samples sr < audio.length) :
    bestStart audio sr ∈ pyRange (audio.length - max_samples sr) (sr / 10) ∧
    (∀ s ∈ pyRange (audio.length - max_samples sr) (sr / 10),
      energy audio s (max_samples sr) ≤
        energy audio (bestStart audio sr) (max_samples sr)) ∧
    (∀ s ∈ pyRange (audio.length - max_samples sr) (sr / 10),
      energy audio s (max_samples sr) =
        energy audio (bestStart audio sr) (max_samples sr) →
      bestStart audio sr ≤ s) ∧
    trim_audio audio sr =
      pySlice audio (bestStart audio sr) (max_samples sr) := by
  obtain ⟨h1, h2, h3⟩ := bestStart_spec audio sr h10 hlen
  refine ⟨h1, h2, h3, ?_⟩
  have hmin : ¬ audio.length < min_samples sr := by
    simp only [min_samples, max_samples] at *
    omega
  rw [trim_audio, if_neg hmin, if_pos hlen, if_pos hlen]

/-- Concrete instance of `C7_single_best_max_rms` (31 zero samples at a
10 Hz rate, window 30, single scanned position 0). -/
theorem C7_witness :
    bestStart (List.replicate 31 (0:ℚ)) 10 ∈
      pyRange ((List.replicate 31 (0:ℚ)).length - max_samples 10) (10 / 10) ∧
    trim_audio (List.replicate 31 (0:ℚ)) 10 =
      pySlice (List.replicate 31 (0:ℚ)) (bestStart (List.replicate 31 (0:ℚ)) 10)
        (max_samples 10) := by
  have h := C7_single_best_max_rms (List.replicate 31 (0:ℚ)) 10 (by norm_num)
    (by simp [max_samples])
  exact ⟨h.1, h.2.2.2⟩

/-- Supporting fact for the duration invariant: `audio_ingest.trim_audio`
always lands in `[min_samples, max_samples]` (the `cornell_ingest` pipeline
has no such clamp; see `C1_cornell_short_clip_not_padded`). -/
theorem trim_audio_length_bounds (audio : List ℚ) (sr : ℕ) (h10 : 10 ≤ sr) :
    min_samples sr ≤ (trim_audio audio sr).length ∧
    (trim_audio audio sr).length ≤ max_samples sr := by
  by_cases h1 : audio.length < min_samples sr
  · rw [trim_audio, if_pos h1]
    rw [List.length_append, List.length_replicate]
    simp only [min_samples, max_samples] at *
    omega
  · by_cases h2 : max_samples sr < audio.length
    · rw [trim_audio, if_neg h1, if_pos h2, if_pos h2]
      have hmem := (bestStart_spec audio sr h10 h2).1
      have hlt := mem_pyRange_lt (Nat.div_pos (by omega) (by norm_num)) hmem
      rw [pySlice, List.length_take, List.length_drop]
      simp only [min_samples, max_samples] at *
      omega
    · rw [trim_audio, if_neg h1, if_neg h2]
      simp only [min_samples, max_samples] at *
      omega

lemma greedySelect_mem (W cap : ℕ) :
    ∀ (l sel : List ℕ), ∀ x ∈ greedySelect W cap l sel, x ∈ sel ∨ x ∈ l := by
  intro l
  induction l with
  | nil => intro sel x hx; exact Or.inl hx
  | cons s rest ih =>
    intro sel x hx
    rw [greedySelect] at hx
    by_cases h1 : sel.any (fun t => Nat.dist s t < W)
    · rw [if_pos h1] at hx
      rcases ih sel x hx with h | h
      · exact Or.inl h
      · exact Or.inr (List.mem_cons_of_mem _ h)
    · rw [if_neg h1] at hx
      by_cases h2 : cap ≤ sel.length + 1
      · rw [if_pos h2] at hx
        rcases List.mem_append.mp hx with h | h
        · exact Or.inl h
        · exact Or.inr (by rw [List.mem_singleton.mp h]; exact List.mem_cons_self s rest)
      · rw [if_neg h2] at hx
        rcases ih (sel ++ [s]) x hx with h | h
        · rcases List.mem_append.mp h with h' | h'
          · exact Or.inl h'
          · exact Or.inr (by simp [List.mem_singleton.mp h'])
        · exact Or.inr (List.mem_cons_of_mem _ h)

lemma greedySelect_pairwise (W cap : ℕ) :
    ∀ (l sel : List ℕ), sel.Pairwise (fun a b => W ≤ Nat.dist a b) →
      (greedySelect W cap l sel).Pairwise (fun a b => W ≤ Nat.dist a b) := by
  intro l
  induction l with
  | nil => intro sel h; exact h
  | cons s rest ih =>
    intro sel hsel
    rw [greedySelect]
    by_cases h1 : sel.any (fun t => Nat.dist s t < W)
    · rw [if_pos h1]; exact ih sel hsel
    · rw [if_neg h1]
      have hfar : ∀ t ∈ sel, W ≤ Nat.dist t s := by
        intro t ht
        have := (List.any_eq_true).not.mp h1
        push_neg at this
        have h' := this t ht
        rw [Nat.dist_comm]
        simpa using not_lt.mp (by simpa using h')
      have hsel' : (sel ++ [s]).Pairwise (fun a b => W ≤ Nat.dist a b) := by
        rw [List.pairwise_append]
        exact ⟨hsel, List.pairwise_singleton _ _,
          fun a ha b hb => (List.mem_singleton.mp hb) ▸ hfar a ha⟩
      by_cases h2 : cap ≤ sel.length + 1
      · rw [if_pos h2]; exact hsel'
      · rw [if_neg h2]; exact ih (sel ++ [s]) hsel'

lemma greedySelect_length (W cap : ℕ) :
    ∀ (l sel : List ℕ), sel.length < cap →
      (greedySelect W cap l sel).length ≤ cap := by
  intro l
  induction l with
  | nil => intro sel h; exact Nat.le_of_lt h
  | cons s rest ih =>
    intro sel hsel
    rw [greedySelect]
    by_cases h1 : sel.any (fun t => Nat.dist s t < W)
    · rw [if_pos h1]; exact ih sel hsel
    · rw [if_neg h1]
      by_cases h2 : cap ≤ sel.length + 1
      · rw [if_pos h2]
        rw [List.length_append, List.length_singleton]
        omega
      · rw [if_neg h2]
        exact ih (sel ++ [s]) (by rw [List.length_append, List.length_singleton]; omega)

lemma greedySelect_append (W cap : ℕ) :
    ∀ (l sel : List ℕ), ∃ t, greedySelect W cap l sel = sel ++ t := by
  intro l
  induction l with
  | nil => intro sel; exact ⟨[], by rw [greedySelect, List.append_nil]⟩
  | cons s rest ih =>
    intro sel
    rw [greedySelect]
    by_cases h1 : sel.any (fun t => Nat.dist s t < W)
    · rw [if_pos h1]; exact ih sel
    · rw [if_neg h1]
      by_cases h2 : cap ≤ sel.length + 1
      · rw [if_pos h2]; exact ⟨[s], rfl⟩
      · rw [if_neg h2]
        obtain ⟨t, ht⟩ := ih (sel ++ [s])
        exact ⟨[s] ++ t, by rw [ht, List.append_assoc]⟩

lemma greedySelect_cons_ne_nil (W cap : ℕ) (s : ℕ) (rest : List ℕ) :
    greedySelect W cap (s :: rest) [] ≠ [] := by
  rw [greedySelect]
  simp only [List.any_nil, Bool.false_eq_true, if_false, List.nil_append,
    List.length_nil]
  by_cases h2 : cap ≤ 0 + 1
  · rw [if_pos h2]; simp
  · rw [if_neg h2]
    obtain ⟨t, ht⟩ := greedySelect_append W cap rest [s]
    rw [ht]; simp

lemma pySlice_length {audio : List ℚ} {s T : ℕ} (h : s + T ≤ audio.length) :
    (pySlice audio s T).length = T := by
  rw [pySlice, List.length_take, List.length_drop]
  omega

lemma selectedStarts_subset (audio : List ℚ) (sr W : ℕ) :
    ∀ x ∈ selectedStarts audio sr W, x ∈ pyRange (audio.length - W) (sr / 2) := by
  intro x hx
  rcases greedySelect_mem _ _ _ _ x hx with h | h
  · exact absurd h (List.not_mem_nil x)
  · exact List.mem_mergeSort.mp h

lemma pyNat_of_nonneg {q : ℚ} (h : 0 ≤ q) : pyNat q = ⌊q⌋₊ := by
  rw [pyNat, pyInt, if_pos h, Int.floor_toNat]

lemma sortedStarts_ne_nil {audio : List ℚ} {sr W : ℕ}
    (h : pyRange (audio.length - W) (sr / 2) ≠ []) :
    sortedStarts audio sr W ≠ [] := by
  obtain ⟨x, hx⟩ := List.exists_mem_of_ne_nil _ h
  exact List.ne_nil_of_mem (List.mem_mergeSort.mpr hx)

lemma selectedStarts_ne_nil {audio : List ℚ} {sr W : ℕ}
    (h : sortedStarts audio sr W ≠ []) :
    selectedStarts audio sr W ≠ [] := by
  rw [selectedStarts]
  obtain ⟨s, rest, hsr⟩ := List.exists_cons_of_ne_nil h
  rw [hsr]
  exact greedySelect_cons_ne_nil _ _ _ _

lemma selectedStarts_length_le (audio : List ℚ) (sr W : ℕ)
    (h : sortedStarts audio sr W ≠ []) :
    (selectedStarts audio sr W).length ≤ 3 := by
  have h1 : 0 < (sortedStarts audio sr W).length := List.length_pos.mpr h
  have h2 : ([] : List ℕ).length < min 3 (sortedStarts audio sr W).length := by
    simp only [List.length_nil]
    omega
  exact le_trans (greedySelect_length _ _ _ _ h2) (min_le_left _ _)

lemma selectedStarts_pairwise (audio : List ℚ) (sr W : ℕ) :
    (selectedStarts audio sr W).Pairwise (fun a b => W ≤ Nat.dist a b) := by
  rw [selectedStarts]
  exact greedySelect_pairwise _ _ _ _ List.Pairwise.nil

lemma filterMap_min_eq_map (audio : List ℚ) (m T : ℕ) (sel : List ℕ)
    (h : ∀ s ∈ sel, m ≤ (pySlice audio s T).length) :
    sel.filterMap (fun s =>
        if m ≤ (pySlice audio s T).length then some (pySlice audio s T) else none)
      = sel.map (fun s => pySlice audio s T) := by
  induction sel with
  | nil => rfl
  | cons a as ih =>
    rw [List.filterMap_cons, List.map_cons]
    rw [if_pos (h a (List.mem_cons_self _ _)),
      ih (fun s hs => h s (List.mem_cons_of_mem _ hs))]

/-- Claim C8: in multi-segment mode (`extract_clips` of cornell_ingest.py /
nz_ingest.py), a buffer no longer than the target window comes back whole as
the single segment; a longer buffer yields at most 3 windows, each of exactly
the target window length, whose start offsets pairwise differ by at least one
window length, the windows being the greedy descending-RMS selection
`selectedStarts`. -/
theorem C8_multi_segment_non_overlap (audio : List ℚ) (sr : ℕ) (td : ℚ)
    (hsr : 2 ≤ sr) (hmin : min_samples sr ≤ target_samples td sr) :
    (audio.length ≤ target_samples td sr → extract_clips audio sr td = [audio]) ∧
    (target_samples td sr < audio.length →
      extract_clips audio sr td =
        (selectedStarts audio sr (target_samples td sr)).map
          (fun s => pySlice audio s (target_samples td sr)) ∧
      (extract_clips audio sr td).length ≤ 3 ∧
      (∀ c ∈ extract_clips audio sr td, c.length = target_samples td sr) ∧
      (selectedStarts audio sr (target_samples td sr)).Pairwise
        (fun a b => target_samples td sr ≤ Nat.dist a b)) := by
  constructor
  · intro h
    rw [extract_clips, if_pos h]
  · intro h
    have hstop : 0 < audio.length - target_samples td sr := by omega
    have hstep : 0 < sr / 2 := Nat.div_pos (by omega) (by norm_num)
    obtain ⟨rest0, hR⟩ := pyRange_cons hstop hstep
    have hne : pyRange (audio.length - target_samples td sr) (sr / 2) ≠ [] := by
      rw [hR]; simp
    have hsne : sortedStarts audio sr (target_samples td sr) ≠ [] :=
      sortedStarts_ne_nil hne
    have hsel_ne : selectedStarts audio sr (target_samples td sr) ≠ [] :=
      selectedStarts_ne_nil hsne
    have hsliceT : ∀ s ∈ selectedStarts audio sr (target_samples td sr),
        (pySlice audio s (target_samples td sr)).length = target_samples td sr := by
      intro s hs
      have h1 := mem_pyRange_lt hstep (selectedStarts_subset _ _ _ s hs)
      exact pySlice_length (by omega)
    have hfm := filterMap_min_eq_map audio (min_samples sr) (target_samples td sr)
      (selectedStarts audio sr (target_samples td sr))
      (fun s hs => by rw [hsliceT s hs]; exact hmin)
    have heq : extract_clips audio sr td =
        (selectedStarts audio sr (target_samples td sr)).map
          (fun s => pySlice audio s (target_samples td sr)) := by
      rw [extract_clips, if_neg (not_le.mpr h), if_neg hne, hfm]
      obtain ⟨a, as, ha⟩ := List.exists_cons_of_ne_nil hsel_ne
      rw [ha]
      simp only [List.map_cons]
    refine ⟨heq, ?_, ?_, selectedStarts_pairwise _ _ _⟩
    · rw [heq, List.length_map]
      exact selectedStarts_length_le _ _ _ hsne
    · intro c hc
      rw [heq] at hc
      obtain ⟨s, hs, rfl⟩ := List.mem_map.mp hc
      exact hsliceT s hs

/-- Concrete instance of `C8_multi_segment_non_overlap`: 8 unit samples at a
2 Hz rate, target 3 s (6 samples). -/
theorem C8_witness :
    extract_clips (List.replicate 8 (1:ℚ)) 2 3 =
      (selectedStarts (List.replicate 8 (1:ℚ)) 2 (target_samples 3 2)).map
        (fun s => pySlice (List.replicate 8 (1:ℚ)) s (target_samples 3 2)) ∧
    (extract_clips (List.replicate 8 (1:ℚ)) 2 3).length ≤ 3 := by
  have hts : target_samples 3 2 = 6 := by
    rw [target_samples, pyNat_of_nonneg (by norm_num)]
    norm_num
  have h := C8_multi_segment_non_overlap (List.replicate 8 (1:ℚ)) 2 3
    (by norm_num) (by rw [hts]; norm_num [min_samples])
  have h2 := h.2 (by rw [hts]; simp)
  exact ⟨h2.1, h2.2.1⟩

lemma sumSq_replicate_zero (n : ℕ) : sumSq (List.replicate n (0:ℚ)) = 0 := by
  simp [sumSq, List.map_replicate]

/-- Claim C5: whenever the measured integrated loudness is undefined (the
meter returns `none`, the embedding of the −∞/NaN result on silent or
near-silent buffers), `normalize_loudness` skips normalization and returns the
buffer unchanged — in particular on an all-zero buffer, whose measured
loudness is undefined; no division or gain is evaluated on this path, so no
NaN/Inf samples can arise. -/
theorem C5_silence_skips_normalization (meter : List ℚ → Option ℚ)
    (gain : ℚ → ℚ) (audio : List ℚ) (n : ℕ) (h : meter audio = none) :
    normalize_loudness meter gain audio = audio ∧
    normalize_loudness integrated_loudness gain (List.replicate n (0:ℚ)) =
      List.replicate n (0:ℚ) := by
  constructor
  · simp [normalize_loudness, h]
  · have hz : integrated_loudness (List.replicate n (0:ℚ)) = none := by
      rw [integrated_loudness, if_pos (sumSq_replicate_zero n)]
    simp [normalize_loudness, hz]

/-- Concrete instance of `C5_silence_skips_normalization`: the one-sample
silent buffer is returned unchanged. -/
theorem C5_witness :
    normalize_loudness integrated_loudness (fun _ => 2) [(0:ℚ)] = [(0:ℚ)] :=
  (C5_silence_skips_normalization integrated_loudness (fun _ => 2) [(0:ℚ)] 1
    (by simp [integrated_loudness, sumSq])).1

/-- Claim C6: every buffer returned by the loudness-normalization stage has
all samples in `[-1, 1]`, whether or not a gain was applied — on the gain
path because of the hard clip, on the skip path because the decoded input
samples already lie in `[-1, 1]` (16-bit PCM decodes into `[-1, 1]`, and
downmix averaging, interpolating resampling, slicing and zero-padding all
preserve that bound). -/
theorem C6_output_amplitude_bounded (meter : List ℚ → Option ℚ)
    (gain : ℚ → ℚ) (audio : List ℚ) (h : ∀ x ∈ audio, -1 ≤ x ∧ x ≤ 1) :
    ∀ y ∈ normalize_loudness meter gain audio, -1 ≤ y ∧ y ≤ 1 := by
  intro y hy
  cases hm : meter audio with
  | none =>
    simp only [normalize_loudness, hm] at hy
    exact h y hy
  | some L =>
    simp only [normalize_loudness, hm] at hy
    obtain ⟨z, _, rfl⟩ := List.mem_map.mp hy
    refine ⟨le_max_left _ _, ?_⟩
    exact max_le (by norm_num) (min_le_right _ _)

/-- Concrete instance of `C6_output_amplitude_bounded`: a gain of 3 on the
sample 1/2 clips to 1, inside the bound. -/
theorem C6_witness : -1 ≤ (1:ℚ) ∧ (1:ℚ) ≤ 1 := by
  have hmem : (1:ℚ) ∈ normalize_loudness (fun _ => some 0) (fun _ => 3)
      [(1/2:ℚ)] := by
    norm_num [normalize_loudness, npClip]
  exact C6_output_amplitude_bounded (fun _ => some 0) (fun _ => 3) [(1/2:ℚ)]
    (by intro x hx; rw [List.mem_singleton] at hx; subst hx; norm_num)
    1 hmem

lemma resample_length_of_ne {audio : List ℚ} {srIn srOut : ℕ}
    (hpos : 0 < srIn) (hne : srIn ≠ srOut) :
    (resample audio srIn srOut).1.length = audio.length * srOut / srIn := by
  rw [resample, if_neg hne]
  simp only [List.length_map, List.length_range]
  have hq : (audio.length : ℚ) / (srIn : ℚ) * (srOut : ℚ)
      = ((audio.length * srOut : ℕ) : ℚ) / (srIn : ℚ) := by
    push_cast
    ring
  rw [hq, pyNat_of_nonneg (by positivity), Nat.floor_div_nat, Nat.floor_natCast]

/-- Claim C9, amended: with differing rates the resampler produces exactly
`int((n / sr_in) * sr_out)` samples — integer truncation, `⌊n·sr_out/sr_in⌋`,
not rounding — by linear interpolation at indices evenly spaced across the new
length; the output sample rate is exactly `sr_out`, and with equal rates the
input is returned unchanged. -/
theorem C9_resample_length_trunc (audio : List ℚ) (srIn srOut : ℕ)
    (hpos : 0 < srIn) :
    (srIn ≠ srOut →
      (resample audio srIn srOut).1.length = audio.length * srOut / srIn) ∧
    (resample audio srIn srOut).2 = srOut ∧
    (srIn = srOut → resample audio srIn srOut = (audio, srIn)) := by
  refine ⟨fun hne => resample_length_of_ne hpos hne, ?_, fun heq => ?_⟩
  · by_cases heq : srIn = srOut
    · rw [resample, if_pos heq, heq]
    · rw [resample, if_neg heq]
  · rw [resample, if_pos heq]

/-- Concrete instance of `C9_resample_length_trunc`: 100 samples, 48000 Hz to
44100 Hz, and the identity case at equal rates. -/
theorem C9_witness :
    (resample (List.replicate 100 (0:ℚ)) 48000 44100).1.length
      = (List.replicate 100 (0:ℚ)).length * 44100 / 48000 ∧
    resample [(1:ℚ)] 5 5 = ([(1:ℚ)], 5) := by
  constructor
  · exact (C9_resample_length_trunc (List.replicate 100 (0:ℚ)) 48000 44100
      (by norm_num)).1 (by norm_num)
  · exact (C9_resample_length_trunc [(1:ℚ)] 5 5 (by norm_num)).2.2 rfl

/-- Claim C9 counterexample: the claim says the resampler produces
`round((n / sr_in) * sr_out)` samples; the code computes
`int(duration * OUTPUT_SAMPLE_RATE)`, which truncates.  At `n = 100`,
`sr_in = 48000`, `sr_out = 44100` the exact value is 91.875: the code
produces 91 samples, `round` would give 92. -/
theorem C9_counterexample_length_not_round :
    (resample (List.replicate 100 (0:ℚ)) 48000 44100).1.length = 91 ∧
    round ((100 : ℚ) / 48000 * 44100) = 92 := by
  constructor
  · rw [resample_length_of_ne (by norm_num) (by norm_num)]
    norm_num
  · norm_num [round_eq]

/-- Claim C3: `clip_selector.extract_clip` rejects a requested duration
outside `[MIN_DURATION, MAX_DURATION] = [0.5, 3.0]` and segment boundaries
outside the source buffer (start sample below 0 or end sample past the buffer
length) with a `ValueError` naming the violated constraint; every file write
(`sf.write`, the spectrogram, the `clips.json` rewrite) lives in the `.ok`
branch after these validations, so an erroring request produces no audio
file, spectrogram, or catalog update. -/
theorem C3_selector_validates_before_write (audio : List ℚ) (sr : ℕ)
    (startTime duration : ℚ) (speciesCode : List Char)
    (meter : List ℚ → Option ℚ) (gain : ℚ → ℚ) (catalog : List Clip) :
    ((duration < 1/2 ∨ 3 < duration) →
      ClipSelector.extract_clip audio sr startTime duration speciesCode
          meter gain catalog
        = .error (.durationOutOfRange duration)) ∧
    (¬(duration < 1/2 ∨ 3 < duration) →
      ¬(speciesCode.length < 3 ∨ 10 < speciesCode.length) →
      (pyInt (startTime * (sr : ℚ)) < 0 ∨
        (audio.length : ℤ) < pyInt ((startTime + duration) * (sr : ℚ))) →
      ClipSelector.extract_clip audio sr startTime duration speciesCode
          meter gain catalog
        = .error (.selectionOutOfBounds startTime (startTime + duration))) := by
  constructor
  · intro h
    rw [ClipSelector.extract_clip, if_pos h]
  · intro h1 h2 h3
    rw [ClipSelector.extract_clip, if_neg h1, if_neg h2, if_pos h3]

/-- Concrete instances of `C3_selector_validates_before_write`: a 4-second
request fails the duration bound; a request starting at −1 s fails the
boundary check.  Both yield the named error and nothing else. -/
theorem C3_witness :
    ClipSelector.extract_clip [] 44100 0 4 ("ABCD".toList)
        (fun _ => none) id []
      = .error (.durationOutOfRange 4) ∧
    ClipSelector.extract_clip [] 10 (-1) 1 ("ABCD".toList)
        (fun _ => none) id []
      = .error (.selectionOutOfBounds (-1) (-1 + 1)) := by
  constructor
  · exact (C3_selector_validates_before_write [] 44100 0 4 ("ABCD".toList)
      (fun _ => none) id []).1 (by norm_num)
  · refine (C3_selector_validates_before_write [] 10 (-1) 1 ("ABCD".toList)
      (fun _ => none) id []).2 (by norm_num) (by norm_num) ?_
    left
    rw [pyInt, if_neg (by norm_num)]
    norm_num

/-- Claim C4: merging a candidates manifest appends exactly one record per
candidate, so every merge succeeds with
`len(new) = len(old) + len(candidates) ≥ len(old)`; the guard that would
abort (exiting before the save, leaving `clips.json` untouched) on a count
decrease can therefore never fire. -/
theorem C4_merge_never_shrinks (existing : List Clip)
    (candidates : List MergeCandidates.Candidate) :
    MergeCandidates.merge_candidates existing candidates
      = .ok (existing ++ candidates.map MergeCandidates.candidateEntry) ∧
    (existing ++ candidates.map MergeCandidates.candidateEntry).length
      = existing.length + candidates.length ∧
    existing.length ≤
      (existing ++ candidates.map MergeCandidates.candidateEntry).length := by
  refine ⟨?_, ?_, ?_⟩
  · rw [MergeCandidates.merge_candidates,
      if_neg (by rw [List.length_append]; omega)]
  · rw [List.length_append, List.length_map]
  · rw [List.length_append]
    omega

lemma checkCanonicals_none_bound :
    ∀ (l : List Clip) (seen : List (List Char)),
      ReviewClips.checkCanonicals l seen = none →
      ∀ sp, ReviewClips.canonCount l sp ≤ if sp ∈ seen then 0 else 1 := by
  intro l
  induction l with
  | nil =>
    intro seen _ sp
    simp [ReviewClips.canonCount]
  | cons c rest ih =>
    intro seen hnone sp
    rw [ReviewClips.checkCanonicals] at hnone
    rw [ReviewClips.canonCount, List.countP_cons]
    by_cases hc : (c.canonical && !c.rejected) = true
    · rw [if_pos hc] at hnone
      by_cases hsn : c.species_code ∈ seen
      · rw [if_pos hsn] at hnone
        exact absurd hnone (by simp)
      · rw [if_neg hsn] at hnone
        have hrest := ih (c.species_code :: seen) hnone sp
        by_cases hsp : c.species_code = sp
        · have hmem : sp ∈ c.species_code :: seen := by
            rw [← hsp]; exact List.mem_cons_self _ _
          rw [if_pos hmem] at hrest
          have hsn' : sp ∉ seen := by rw [← hsp]; exact hsn
          rw [if_neg hsn']
          have hpc : (c.canonical && !c.rejected && (c.species_code == sp)) = true := by
            rw [Bool.and_eq_true, beq_iff_eq]
            exact ⟨hc, hsp⟩
          rw [hpc, if_pos rfl]
          rw [ReviewClips.canonCount] at hrest
          omega
        · have hmem : (sp ∈ c.species_code :: seen) ↔ (sp ∈ seen) := by
            rw [List.mem_cons]
            constructor
            · rintro (h | h)
              · exact absurd h.symm hsp
              · exact h
            · exact Or.inr
          have hpc : (c.canonical && !c.rejected && (c.species_code == sp)) = false := by
            rw [Bool.and_eq_false_iff]
            right
            rw [beq_eq_false_iff_ne]
            exact hsp
          rw [hpc]
          rw [ReviewClips.canonCount] at hrest
          by_cases hin : sp ∈ seen
          · rw [if_pos hin]
            rw [if_pos (hmem.mpr hin)] at hrest
            simpa using hrest
          · rw [if_neg hin]
            rw [if_neg (fun h => hin (hmem.mp h))] at hrest
            simpa using hrest
    · rw [if_neg hc] at hnone
      have hrest := ih seen hnone sp
      have hpc : (c.canonical && !c.rejected && (c.species_code == sp)) = false := by
        rw [Bool.and_eq_false_iff]
        left
        exact (Bool.not_eq_true _).mp hc
      rw [hpc]
      rw [ReviewClips.canonCount] at hrest
      simpa using hrest

/-- Claim C2: a successful `review_clips.save_changes` writes a catalog with
at most one non-rejected canonical record per species; a save whose
modified in-memory state has two or more non-rejected canonicals for one
species raises (`.error`) at validation step 5, before the file deletions of
step 6 and the catalog write of step 8, so the catalog file on disk is
unchanged. -/
theorem C2_save_canonical_unique (clips : List Clip)
    (modified : List (List Char × ReviewClips.ClipUpdates)) (sp : List Char) :
    (∀ out, ReviewClips.save_changes clips modified = .ok out →
      ReviewClips.canonCount out sp ≤ 1) ∧
    (2 ≤ ReviewClips.canonCount
        (ReviewClips.applyModifications clips modified) sp →
      ∃ e, ReviewClips.save_changes clips modified = .error e) := by
  constructor
  · intro out hok
    rw [ReviewClips.save_changes] at hok
    cases hchk : ReviewClips.checkCanonicals
        (ReviewClips.applyModifications clips modified) [] with
    | some e =>
      rw [hchk] at hok
      exact absurd hok (by simp)
    | none =>
      rw [hchk] at hok
      have hout : out = (ReviewClips.applyModifications clips modified).filter
          (fun c => !c.rejected) := by
        have := hok
        simp only [Except.ok.injEq] at this
        exact this.symm
      subst hout
      have hb := checkCanonicals_none_bound _ [] hchk sp
      rw [if_neg (List.not_mem_nil sp)] at hb
      refine le_trans ?_ hb
      exact List.Sublist.countP_le _ (List.filter_sublist _)
  · intro h2
    cases hchk : ReviewClips.checkCanonicals
        (ReviewClips.applyModifications clips modified) [] with
    | some e =>
      exact ⟨e, by rw [ReviewClips.save_changes, hchk]⟩
    | none =>
      exfalso
      have hb := checkCanonicals_none_bound _ [] hchk sp
      rw [if_neg (List.not_mem_nil sp)] at hb
      omega

/-- Concrete instances of `C2_save_canonical_unique`: a catalog with a single
canonical `AA` clip saves with at most one canonical; a catalog with two
non-rejected canonical `AA` clips makes the save raise. -/
theorem C2_witness :
    ReviewClips.canonCount
      [{ clip_id := "a1".toList, species_code := "AA".toList,
         canonical := true, rejected := false, quality_score := 5,
         vocalization_type := "song".toList }] ("AA".toList) ≤ 1 ∧
    ∃ e, ReviewClips.save_changes
      [{ clip_id := "a1".toList, species_code := "AA".toList,
         canonical := true, rejected := false, quality_score := 5,
         vocalization_type := "song".toList },
       { clip_id := "a2".toList, species_code := "AA".toList,
         canonical := true, rejected := false, quality_score := 5,
         vocalization_type := "song".toList }] [] = .error e := by
  constructor
  · exact (C2_save_canonical_unique
      [{ clip_id := "a1".toList, species_code := "AA".toList,
         canonical := true, rejected := false, quality_score := 5,
         vocalization_type := "song".toList }] [] ("AA".toList)).1
      [{ clip_id := "a1".toList, species_code := "AA".toList,
         canonical := true, rejected := false, quality_score := 5,
         vocalization_type := "song".toList }] rfl
  · exact (C2_save_canonical_unique
      [{ clip_id := "a1".toList, species_code := "AA".toList,
         canonical := true, rejected := false, quality_score := 5,
         vocalization_type := "song".toList },
       { clip_id := "a2".toList, species_code := "AA".toList,
         canonical := true, rejected := false, quality_score := 5,
         vocalization_type := "song".toList }] [] ("AA".toList)).2 (by decide)

lemma digitVal_digitChar {d : ℕ} (h : d < 10) : digitVal (digitChar d) = d := by
  interval_cases d <;> rfl

lemma isDigit_digitChar {d : ℕ} (h : d < 10) : (digitChar d).isDigit = true := by
  interval_cases d <;> rfl

lemma hornerFoldl (l : List ℕ) :
    l.reverse.foldl (fun a d => 10 * a + d) 0 = Nat.ofDigits 10 l := by
  induction l with
  | nil => rfl
  | cons d rest ih =>
    rw [List.reverse_cons, List.foldl_append, ih, Nat.ofDigits_cons,
      List.foldl_cons, List.foldl_nil]
    ring

lemma digitsVal_natChars (n : ℕ) : digitsVal (natChars n) = n := by
  rw [digitsVal, natChars, List.foldl_map]
  rw [List.foldl_ext (fun a c => 10 * a + digitVal (digitChar c))
    (fun a d => 10 * a + d) 0
    (fun a d hd => by
      show 10 * a + digitVal (digitChar d) = 10 * a + d
      rw [digitVal_digitChar
        (Nat.digits_lt_base (by norm_num) (List.mem_reverse.mp hd))])]
  rw [hornerFoldl, Nat.ofDigits_digits]

lemma foldl_digit_zeros (k : ℕ) :
    (List.replicate k '0').foldl (fun a c => 10 * a + digitVal c) 0 = 0 := by
  induction k with
  | zero => rfl
  | succ m ihm =>
    rw [List.replicate_succ, List.foldl_cons]
    simpa [digitVal] using ihm

lemma digitsVal_padZero (w : ℕ) (cs : List Char) :
    digitsVal (padZero w cs) = digitsVal cs := by
  rw [padZero, digitsVal, List.foldl_append, foldl_digit_zeros, digitsVal]

lemma padZero_all_digits {w : ℕ} {cs : List Char} (h : cs.all Char.isDigit) :
    (padZero w cs).all Char.isDigit := by
  rw [padZero, List.all_append]
  rw [Bool.and_eq_true]
  refine ⟨?_, h⟩
  rw [List.all_eq_true]
  intro c hc
  rw [List.eq_of_mem_replicate hc]
  rfl

lemma natChars_all_digits (n : ℕ) : (natChars n).all Char.isDigit := by
  rw [natChars, List.all_eq_true]
  intro c hc
  obtain ⟨d, hd, rfl⟩ := List.mem_map.mp hc
  exact isDigit_digitChar (Nat.digits_lt_base (by norm_num) (List.mem_reverse.mp hd))

lemma padZero_ne_nil {w : ℕ} {cs : List Char} (h : 0 < w ∨ cs ≠ []) :
    padZero w cs ≠ [] := by
  rw [padZero]
  intro hc
  rcases List.append_eq_nil.mp hc with ⟨h1, h2⟩
  rcases h with hw | hcs
  · rw [h2, List.length_nil, Nat.sub_zero] at h1
    rw [List.replicate_eq_nil_iff] at h1
    omega
  · exact hcs h2

lemma parseNatDigits_padZero_natChars (w n : ℕ)
    (hne : padZero w (natChars n) ≠ []) :
    parseNatDigits (padZero w (natChars n)) = some n := by
  rw [parseNatDigits,
    if_pos ⟨hne, padZero_all_digits (natChars_all_digits n)⟩,
    digitsVal_padZero, digitsVal_natChars]

lemma parsePyInt_of_digits {cs : List Char} (hne : cs ≠ [])
    (hall : cs.all Char.isDigit) :
    parsePyInt cs = (parseNatDigits cs).map (fun (n : ℕ) => (n : ℤ)) := by
  obtain ⟨c, rest, rfl⟩ := List.exists_cons_of_ne_nil hne
  have hcd : c.isDigit = true :=
    List.all_eq_true.mp hall c (List.mem_cons_self _ _)
  have h1 : ¬ c = '-' := by
    intro h
    rw [h] at hcd
    exact absurd hcd (by decide)
  have h2 : ¬ c = '+' := by
    intro h
    rw [h] at hcd
    exact absurd hcd (by decide)
  rw [parsePyInt, if_neg h1, if_neg h2]

lemma natChars_ne_nil {n : ℕ} (h : n ≠ 0) : natChars n ≠ [] := by
  rw [natChars]
  intro hc
  rw [List.map_eq_nil_iff, List.reverse_eq_nil_iff] at hc
  exact (Nat.digits_ne_nil_iff_ne_zero.mpr h) hc

lemma parsePyInt_pad3 (z : ℤ) : parsePyInt (pad3 z) = some z := by
  by_cases hz : z < 0
  · rw [pad3, if_pos hz, parsePyInt, if_pos rfl]
    have hnz : z.natAbs ≠ 0 := by omega
    rw [parseNatDigits_padZero_natChars 2 z.natAbs
      (padZero_ne_nil (Or.inr (natChars_ne_nil hnz)))]
    rw [Option.map_some']
    congr 1
    omega
  · rw [pad3, if_neg hz]
    rw [parsePyInt_of_digits (padZero_ne_nil (Or.inl (by norm_num)))
      (padZero_all_digits (natChars_all_digits _))]
    rw [parseNatDigits_padZero_natChars 3 z.natAbs
      (padZero_ne_nil (Or.inl (by norm_num)))]
    rw [Option.map_some']
    congr 1
    omega

lemma le_foldl_max (l : List ℤ) : ∀ (a : ℤ), a ≤ l.foldl max a := by
  induction l with
  | nil => intro a; exact le_refl a
  | cons x xs ih =>
    intro a
    rw [List.foldl_cons]
    exact le_trans (le_max_left a x) (ih _)

lemma mem_le_foldl_max (l : List ℤ) : ∀ (a x : ℤ), x ∈ l → x ≤ l.foldl max a := by
  induction l with
  | nil => intro a x hx; exact absurd hx (List.not_mem_nil x)
  | cons y ys ih =>
    intro a x hx
    rw [List.foldl_cons]
    rcases List.mem_cons.mp hx with rfl | hx'
    · exact le_trans (le_max_right a x) (le_foldl_max _ _)
    · exact ih _ x hx'

lemma mem_le_pyMaxDefault {l : List ℤ} {x : ℤ} (h : x ∈ l) :
    x ≤ pyMaxDefault l := by
  cases l with
  | nil => exact absurd h (List.not_mem_nil x)
  | cons y ys =>
    rw [pyMaxDefault]
    rcases List.mem_cons.mp h with rfl | h'
    · exact le_foldl_max _ _
    · exact mem_le_foldl_max _ _ _ h'

/-- Claim C10, amended: the sequential-counter scheme of
`clip_selector.extract_clip` does assign an identifier distinct from every
identifier already in the catalog — the numeric suffix is one more than the
maximum parsed suffix, so the formatted id cannot parse back to an existing
one; but no scheme checks for an in-use identifier or raises on one (see
`C10_counterexample_hash_id_reused` for the hash-derived scheme, which
consults no catalog at all and silently appends a duplicate). -/
theorem C10_sequential_id_fresh (catalog : List Clip) (species : List Char) :
    ∀ c ∈ catalog, c.clip_id ≠ ClipSelector.next_clip_id species catalog := by
  intro c hc heq
  have hid : c.clip_id = (species ++ ClipSelector.docTag)
      ++ pad3 (ClipSelector.next_num species catalog) := by
    rw [heq, ClipSelector.next_clip_id, List.append_assoc]
  have hpf : (species ++ ClipSelector.docTag).isPrefixOf c.clip_id = true := by
    rw [hid]
    exact List.isPrefixOf_iff_prefix.mpr (List.prefix_append _ _)
  have hdrop : c.clip_id.drop (species ++ ClipSelector.docTag).length
      = pad3 (ClipSelector.next_num species catalog) := by
    rw [hid, List.drop_left]
  have hmem : ClipSelector.next_num species catalog ∈
      ClipSelector.clipNums (species ++ ClipSelector.docTag) catalog := by
    rw [ClipSelector.clipNums]
    exact List.mem_filterMap.mpr
      ⟨c, hc, by rw [if_pos hpf, hdrop, parsePyInt_pad3]⟩
  have hle := mem_le_pyMaxDefault hmem
  have hnum : ClipSelector.next_num species catalog =
      pyMaxDefault (ClipSelector.clipNums (species ++ ClipSelector.docTag)
        catalog) + 1 := by
    rw [ClipSelector.next_num]
  omega

/-- Concrete instance of `C10_sequential_id_fresh`: with `TUIX_doc_001`
already in the catalog, the next assigned id differs from it. -/
theorem C10_witness :
    ("TUIX_doc_001".toList) ≠ ClipSelector.next_clip_id ("TUIX".toList)
      [{ clip_id := "TUIX_doc_001".toList, species_code := "TUIX".toList,
         canonical := false, rejected := false, quality_score := 4,
         vocalization_type := "call".toList }] :=
  C10_sequential_id_fresh
    [{ clip_id := "TUIX_doc_001".toList, species_code := "TUIX".toList,
       canonical := false, rejected := false, quality_score := 4,
       vocalization_type := "call".toList }] ("TUIX".toList)
    { clip_id := "TUIX_doc_001".toList, species_code := "TUIX".toList,
      canonical := false, rejected := false, quality_score := 4,
      vocalization_type := "call".toList }
    (List.mem_singleton.mpr rfl)

/-- Claim C10 counterexample: the hash-derived scheme
(`nz_ingest.generate_clip_id`) derives the id deterministically from species
code and url, consulting no catalog, and the new record is appended with no
duplicate check (`processed_files.append`).  With a record carrying that very
id already present — exactly what re-ingesting the same url produces, md5
being deterministic — the freshly assigned id is already in use, yet the
operation completes and leaves two records with the same id instead of
raising a fatal error. -/
theorem C10_counterexample_hash_id_reused :
    NZIngest.generate_clip_id (fun _ => "00c0ffee".toList) ("KEA".toList)
        ("u".toList)
      ∈ List.map Clip.clip_id
        [{ clip_id := NZIngest.generate_clip_id (fun _ => "00c0ffee".toList)
             ("KEA".toList) ("u".toList),
           species_code := "KEA".toList, canonical := false, rejected := false,
           quality_score := 4, vocalization_type := "call".toList }] ∧
    List.map Clip.clip_id
      (NZIngest.addProcessedClip
        [{ clip_id := NZIngest.generate_clip_id (fun _ => "00c0ffee".toList)
             ("KEA".toList) ("u".toList),
           species_code := "KEA".toList, canonical := false, rejected := false,
           quality_score := 4, vocalization_type := "call".toList }]
        { clip_id := NZIngest.generate_clip_id (fun _ => "00c0ffee".toList)
            ("KEA".toList) ("u".toList),
          species_code := "KEA".toList, canonical := false, rejected := false,
          quality_score := 4, vocalization_type := "call".toList })
      = [NZIngest.generate_clip_id (fun _ => "00c0ffee".toList) ("KEA".toList)
           ("u".toList),
         NZIngest.generate_clip_id (fun _ => "00c0ffee".toList) ("KEA".toList)
           ("u".toList)] := by
  constructor
  · exact List.mem_singleton.mpr rfl
  · rfl

lemma normalize_loudness_length (meter : List ℚ → Option ℚ) (gain : ℚ → ℚ)
    (audio : List ℚ) :
    (normalize_loudness meter gain audio).length = audio.length := by
  cases hm : meter audio <;> simp [normalize_loudness, hm]

/-- Claim C1 failing input: `cornell_ingest.process_cornell_file` applies no
final duration clamp.  A 19845-sample (0.45 s at 44100 Hz, long enough for the
loudness meter's 0.4 s block) buffer is returned whole by `extract_clips`
(its `len(audio) <= target_samples` branch bypasses the `MIN_DURATION`
filter), passes unpadded through loudness normalization, and is saved as an
accepted clip of 0.45 s < `MIN_DURATION` = 0.5 s — unlike
`audio_ingest.trim_audio` (`trim_audio_length_bounds`) and
`nz_ingest.process_audio_file`, which zero-pad to `min_samples` exactly as
the claim describes. -/
theorem C1_cornell_short_clip_not_padded :
    extract_clips (List.replicate 19845 ((1:ℚ)/2)) 44100 2
      = [List.replicate 19845 ((1:ℚ)/2)] ∧
    (List.replicate 19845 ((1:ℚ)/2)).length < min_samples 44100 ∧
    (∀ (meter : List ℚ → Option ℚ) (gain : ℚ → ℚ),
      ((normalize_loudness meter gain
          (List.replicate 19845 ((1:ℚ)/2))).length : ℚ) / 44100 < 1/2) := by
  have ht : target_samples 2 44100 = 88200 := by
    rw [target_samples, pyNat_of_nonneg (by norm_num)]
    norm_num
  refine ⟨?_, ?_, ?_⟩
  · rw [extract_clips, if_pos (by rw [List.length_replicate, ht]; norm_num)]
  · rw [List.length_replicate, min_samples]
    norm_num
  · intro meter gain
    rw [normalize_loudness_length, List.length_replicate]
    norm_num
